import Mathlib

/-!
Shallow embedding of `src/cli.py` (Azure-Entitlements-Importer).

The program is a linear fetch-transform-write pipeline:
  * `get_all`  : paginated Graph fetcher (while-loop over `@odata.nextLink`),
  * `safe`     : display-name sanitizer,
  * `main`     : accumulation loop building three keyed mappings plus import
                 commands, then file emission and an optional import runner.

Network responses are inputs of the embedding: a paginated fetch is modelled
by the finite trace of JSON responses the loop consumes, and the per-package
sub-fetches of `main` by functions from a package to the fetched lists.
Python dicts are modelled by association lists with Python's update-in-place /
append-at-end insertion (`dinsert`).  Python's `str.lower` is modelled by the
per-character ASCII lowering `Char.toLower` (display names are mapped
character-wise, matching single-character `str.replace`).
-/

/-- One JSON response consumed by the pagination loop of `get_all`
(src/cli.py lines 17-23).  `value` is the item list under the "value" key
(absent on an error payload), `nextLink` the "@odata.nextLink" field. -/
structure Response (α : Type) where
  value : Option (List α)
  nextLink : Option String
deriving Repr, DecidableEq

/-- Truthiness of the `url` loop variable in `while url:`: `None` and the
empty string are falsy in Python. -/
def truthy : Option String → Bool
  | none => false
  | some s => !(s == "")

/-- `get_all` (src/cli.py lines 17-23) over the trace of responses the loop
consumes: each iteration appends `res.get("value", [])` to the accumulator and
continues iff `res.get("@odata.nextLink")` is truthy. -/
def get_all {α : Type} : List (Response α) → List α
  | [] => []
  | r :: rest => r.value.getD [] ++ (if truthy r.nextLink then get_all rest else [])

/-- Character-wise model of Python's single-character `str.replace(a, b)`. -/
def pyCharSub (a b : Char) (s : String) : String :=
  ⟨s.data.map fun c => if c = a then b else c⟩

/-- Character-wise model of Python's `str.lower` (ASCII range). -/
def pyLower (s : String) : String :=
  ⟨s.data.map Char.toLower⟩

/-- `safe` (src/cli.py lines 30-31):
`name.replace(" ", "_").replace("-", "_").lower()`. -/
def safe (name : String) : String :=
  pyLower (pyCharSub '-' '_' (pyCharSub ' ' '_' name))

/-- The full transformation `safe` applies to a single character. -/
def safeChar (c : Char) : Char :=
  Char.toLower (if (if c = ' ' then '_' else c) = '-' then '_' else if c = ' ' then '_' else c)

theorem safe_eq_map (name : String) : safe name = ⟨name.data.map safeChar⟩ := by
  simp only [safe, pyLower, pyCharSub, List.map_map]
  rfl

theorem toNat_ofNat_valid (m : Nat) (h : m.isValidChar) : (Char.ofNat m).toNat = m := by
  rw [Char.ofNat, dif_pos h]
  rfl

theorem toLower_toNat (c : Char) :
    (Char.toLower c).toNat = if 65 ≤ c.toNat ∧ c.toNat ≤ 90 then c.toNat + 32 else c.toNat := by
  have hdef : Char.toLower c =
      if c.toNat ≥ 65 ∧ c.toNat ≤ 90 then Char.ofNat (c.toNat + 32) else c := rfl
  rw [hdef]
  by_cases h : c.toNat ≥ 65 ∧ c.toNat ≤ 90
  · have h2 : c.toNat ≤ 90 := h.2
    have hv : (c.toNat + 32).isValidChar := Or.inl (by omega)
    rw [if_pos h, if_pos ⟨h.1, h.2⟩, toNat_ofNat_valid _ hv]
  · rw [if_neg h, if_neg (fun hc => h ⟨hc.1, hc.2⟩)]

theorem char_eq_iff_toNat (c d : Char) : c = d ↔ c.toNat = d.toNat := by
  constructor
  · intro h
    rw [h]
  · intro h
    exact Char.ext (UInt32.toNat.inj h)

theorem toLower_idem (c : Char) : Char.toLower (Char.toLower c) = Char.toLower c := by
  rw [char_eq_iff_toNat, toLower_toNat, toLower_toNat c]
  by_cases h : 65 ≤ c.toNat ∧ c.toNat ≤ 90
  · rw [if_pos h, if_neg (by omega)]
  · rw [if_neg h, if_neg h]

theorem toLower_ne_of_ne (c : Char) (d : Char) (hd : d.toNat < 65)
    (h : c ≠ d) : Char.toLower c ≠ d := by
  intro hcontra
  rw [char_eq_iff_toNat, toLower_toNat] at hcontra
  by_cases hr : 65 ≤ c.toNat ∧ c.toNat ≤ 90
  · rw [if_pos hr] at hcontra
    omega
  · rw [if_neg hr] at hcontra
    exact h ((char_eq_iff_toNat c d).mpr hcontra)

theorem safeChar_of_ne (d : Char) (h1 : d ≠ ' ') (h2 : d ≠ '-') :
    safeChar d = Char.toLower d := by
  unfold safeChar
  rw [if_neg h1, if_neg h2]

theorem safeChar_repr (c : Char) :
    ∃ x, x ≠ ' ' ∧ x ≠ '-' ∧ safeChar c = Char.toLower x := by
  refine ⟨if (if c = ' ' then '_' else c) = '-' then '_' else if c = ' ' then '_' else c,
    ?_, ?_, rfl⟩
  · by_cases h : (if c = ' ' then '_' else c) = '-'
    · rw [if_pos h]
      decide
    · rw [if_neg h]
      by_cases hc : c = ' '
      · rw [if_pos hc]
        decide
      · rw [if_neg hc]
        exact hc
  · by_cases h : (if c = ' ' then '_' else c) = '-'
    · rw [if_pos h]
      decide
    · rw [if_neg h]
      exact h

theorem safeChar_idem (c : Char) : safeChar (safeChar c) = safeChar c := by
  obtain ⟨x, hx1, hx2, hx⟩ := safeChar_repr c
  have hne_sp : safeChar c ≠ ' ' := by
    rw [hx]
    exact toLower_ne_of_ne _ _ (by decide) hx1
  have hne_hy : safeChar c ≠ '-' := by
    rw [hx]
    exact toLower_ne_of_ne _ _ (by decide) hx2
  rw [safeChar_of_ne _ hne_sp hne_hy, hx, toLower_idem]

theorem safeChar_map_idem (l : List Char) : (l.map safeChar).map safeChar = l.map safeChar := by
  induction l with
  | nil => rfl
  | cons c cs ih => rw [List.map_cons, List.map_cons, safeChar_idem c, ih]

/-- C2: For every display-name string, `safe` is idempotent:
`safe (safe x) = safe x`. -/
theorem safe_idempotent (s : String) : safe (safe s) = safe s := by
  rw [safe_eq_map s, safe_eq_map]
  exact congrArg String.mk (safeChar_map_idem s.data)

/-- C1: if every response before the last carries a truthy continuation link
and the last response has none, `get_all` returns exactly the concatenation of
all pages' item lists in encounter order. -/
theorem get_all_concat {α : Type} :
    ∀ rs : List (Response α),
      (∀ r ∈ rs.dropLast, truthy r.nextLink = true) →
      (rs.getLast?.bind fun r => r.nextLink) = none →
      get_all rs = (rs.map fun r => r.value.getD []).flatten
  | [], _, _ => rfl
  | [r], _, hlast => by
      have h : r.nextLink = none := by simpa using hlast
      simp [get_all, h, truthy]
  | r :: r2 :: rest, hmid, hlast => by
      have ht : truthy r.nextLink = true := hmid r (by simp)
      have ih := get_all_concat (r2 :: rest)
        (fun x hx => hmid x (by rw [List.dropLast_cons₂]; exact List.mem_cons_of_mem _ hx))
        (by simpa using hlast)
      show r.value.getD [] ++ (if truthy r.nextLink then get_all (r2 :: rest) else []) =
        ((r :: r2 :: rest).map fun x => x.value.getD []).flatten
      rw [ht]
      show r.value.getD [] ++ get_all (r2 :: rest) =
        ((r :: r2 :: rest).map fun x => x.value.getD []).flatten
      rw [ih]
      simp

/-- Witness for C1 at a concrete two-page trace. -/
theorem get_all_concat_spot :
    (∀ r ∈ ([⟨some [1, 2], some "u2"⟩, ⟨some [3], none⟩] :
        List (Response Nat)).dropLast, truthy r.nextLink = true) ∧
    (([⟨some [1, 2], some "u2"⟩, ⟨some [3], none⟩] :
        List (Response Nat)).getLast?.bind fun r => r.nextLink) = none ∧
    get_all ([⟨some [1, 2], some "u2"⟩, ⟨some [3], none⟩] : List (Response Nat)) =
      (([⟨some [1, 2], some "u2"⟩, ⟨some [3], none⟩] :
        List (Response Nat)).map fun r => r.value.getD []).flatten :=
  ⟨by decide, by decide, get_all_concat _ (by decide) (by decide)⟩

/-- C3: an error response carries neither a "value" list nor a continuation
link; `get_all` then returns just the items accumulated from the earlier
pages, as if pagination had ended normally (so an error on the first page
yields `[]`). -/
theorem get_all_error_fallback {α : Type} :
    ∀ (rs : List (Response α)) (e : Response α) (rest : List (Response α)),
      e.value = none → e.nextLink = none →
      (∀ r ∈ rs, truthy r.nextLink = true) →
      get_all (rs ++ e :: rest) = (rs.map fun r => r.value.getD []).flatten
  | [], e, rest, h1, h2, _ => by simp [get_all, h1, h2, truthy]
  | r :: rs, e, rest, h1, h2, hrs => by
      have ht := hrs r (by simp)
      have ih := get_all_error_fallback rs e rest h1 h2 (fun x hx => hrs x (by simp [hx]))
      show r.value.getD [] ++ (if truthy r.nextLink then get_all (rs ++ e :: rest) else []) =
        ((r :: rs).map fun x => x.value.getD []).flatten
      rw [ht]
      show r.value.getD [] ++ get_all (rs ++ e :: rest) =
        ((r :: rs).map fun x => x.value.getD []).flatten
      rw [ih]
      simp

/-- Witness for C3: one good page followed by an error response (and a junk
tail that is never reached) yields only the good page's items; in particular
with no good pages the result is `[]`. -/
theorem get_all_error_fallback_spot :
    (⟨none, none⟩ : Response Nat).value = none ∧
    (⟨none, none⟩ : Response Nat).nextLink = none ∧
    (∀ r ∈ ([⟨some [7], some "u2"⟩] : List (Response Nat)), truthy r.nextLink = true) ∧
    get_all ([⟨some [7], some "u2"⟩] ++ (⟨none, none⟩ : Response Nat) :: [⟨some [9], none⟩]) =
      (([⟨some [7], some "u2"⟩] : List (Response Nat)).map fun r => r.value.getD []).flatten :=
  ⟨rfl, rfl, by decide, get_all_error_fallback _ _ _ rfl rfl (by decide)⟩

/-- An access package as fetched from Graph (fields read by `main`,
src/cli.py lines 55-61): `displayName`, `id`, `catalogId` are indexed
directly (required), `description` via `.get(..., "")`. -/
structure Pkg where
  displayName : String
  id : String
  catalogId : String
  description : Option String
deriving Repr, DecidableEq

/-- One approver object: `a.get("id")` (src/cli.py lines 71, 75). -/
structure Approver where
  id : Option String
deriving Repr, DecidableEq

/-- One approval stage: `stage.get("primaryApprovers", [])` and
`stage.get("escalationApprovers", [])` (src/cli.py lines 72, 76). -/
structure ApprovalStage where
  primaryApprovers : Option (List Approver)
  escalationApprovers : Option (List Approver)
deriving Repr, DecidableEq

/-- The `requestApprovalSettings` object of a policy (src/cli.py
lines 69-77). -/
structure ApprovalSettings where
  isApprovalRequired : Option Bool
  approvalStages : Option (List ApprovalStage)
deriving Repr, DecidableEq

/-- An assignment policy as fetched from Graph (src/cli.py lines 64-79). -/
structure Pol where
  displayName : String
  id : String
  durationInDays : Option Nat
  requestApprovalSettings : Option ApprovalSettings
deriving Repr, DecidableEq

/-- An assignment as fetched from Graph (src/cli.py lines 82-91):
`targetId` and `id` are indexed directly. -/
structure Assign where
  targetId : String
  id : String
deriving Repr, DecidableEq

/-- Value stored in the `access_packages` mapping (src/cli.py lines 57-60). -/
structure PkgVal where
  catalog_id : String
  description : String
deriving Repr, DecidableEq

/-- Value stored in the `assignment_policies` mapping (src/cli.py
lines 66-78). -/
structure PolVal where
  access_package_key : String
  duration_in_days : Nat
  request_approval : Bool
  approvers_primary : List (Option String)
  approvers_secondary : List (Option String)
deriving Repr, DecidableEq

/-- Value stored in the `assignments` mapping (src/cli.py lines 86-89). -/
structure AssignVal where
  access_package_key : String
  target_id : String
deriving Repr, DecidableEq

/-- A Python dict with string keys, as an insertion-ordered association
list. -/
abbrev Dict (α : Type) : Type := List (String × α)

/-- Python dict assignment `d[k] = v`: update in place if the key is
present (keeping its position), otherwise append at the end. -/
def dinsert {α : Type} (k : String) (v : α) : Dict α → Dict α
  | [] => [(k, v)]
  | (k', v') :: d => if k' = k then (k', v) :: d else (k', v') :: dinsert k v d

/-- Python dict lookup `d[k]` (as an `Option`). -/
def dlookup {α : Type} (k : String) : Dict α → Option α
  | [] => none
  | (k', v) :: d => if k' = k then some v else dlookup k d

/-- `get_display_name` (src/cli.py lines 25-28): one directory lookup,
defaulting to "UnknownGroup" when the response has no displayName.  The
directory is a parameter of the embedding. -/
def get_display_name (dirDisplayName : String → Option String) (object_id : String) : String :=
  (dirDisplayName object_id).getD "UnknownGroup"

/-- The accumulator state of `main`'s loop (src/cli.py lines 52-53):
`access_packages, assignment_policies, assignments = {}, {}, {}` and
`grouped_assignments, import_cmds = {}, []`. -/
structure PState where
  access_packages : Dict PkgVal
  assignment_policies : Dict PolVal
  assignments : Dict AssignVal
  grouped_assignments : Dict (Dict AssignVal)
  import_cmds : List String
deriving Repr, DecidableEq

/-- Initial accumulator state. -/
def initialState : PState := ⟨[], [], [], [], []⟩

/-- The `access_packages[name]` record (src/cli.py lines 57-60). -/
def pkgVal (pkg : Pkg) : PkgVal :=
  ⟨pkg.catalogId, pkg.description.getD ""⟩

/-- The `assignment_policies[pol_key]` record (src/cli.py lines 66-78). -/
def polVal (name : String) (pol : Pol) : PolVal :=
  { access_package_key := name
    duration_in_days := pol.durationInDays.getD 30
    request_approval := ((pol.requestApprovalSettings.getD ⟨none, none⟩).isApprovalRequired).getD false
    approvers_primary := ((pol.requestApprovalSettings.getD ⟨none, none⟩).approvalStages.getD []).flatMap
      fun stage => (stage.primaryApprovers.getD []).map Approver.id
    approvers_secondary := ((pol.requestApprovalSettings.getD ⟨none, none⟩).approvalStages.getD []).flatMap
      fun stage => (stage.escalationApprovers.getD []).map Approver.id }

/-- The policy key `f"{name}_{safe(pol['displayName'])}"` (src/cli.py
line 65). -/
def polKey (name : String) (pol : Pol) : String :=
  name ++ "_" ++ safe pol.displayName

/-- One iteration of the policy loop (src/cli.py lines 64-79). -/
def processPol (name : String) (s : PState) (pol : Pol) : PState :=
  { s with
    assignment_policies := dinsert (polKey name pol) (polVal name pol) s.assignment_policies
    import_cmds := s.import_cmds ++
      ["terraform import azuread_access_package_assignment_policy." ++ polKey name pol ++ " " ++ pol.id] }

/-- The assignment key `f"{name}_user_{target_id[:6]}"` (src/cli.py
line 85): only the first 6 characters of the target id are used. -/
def assignKey (name : String) (a : Assign) : String :=
  name ++ "_user_" ++ a.targetId.take 6

/-- The `assignment` record (src/cli.py lines 86-89). -/
def assignVal (name : String) (a : Assign) : AssignVal :=
  ⟨name, a.targetId⟩

/-- One iteration of the assignment loop (src/cli.py lines 82-93),
including the `grouped_assignments.setdefault(group, {})[assign_key]`
update when `--grouped-tfvars` is set. -/
def processAssign (grouped_tfvars : Bool) (dirDisplayName : String → Option String)
    (name : String) (s : PState) (a : Assign) : PState :=
  let group := safe (get_display_name dirDisplayName a.targetId)
  { s with
    assignments := dinsert (assignKey name a) (assignVal name a) s.assignments
    import_cmds := s.import_cmds ++
      ["terraform import azuread_access_package_assignment." ++ assignKey name a ++ " " ++ a.id]
    grouped_assignments :=
      if grouped_tfvars then
        dinsert group
          (dinsert (assignKey name a) (assignVal name a)
            ((dlookup group s.grouped_assignments).getD []))
          s.grouped_assignments
      else s.grouped_assignments }

/-- One iteration of the package loop (src/cli.py lines 55-93): insert the
package, then fold its policies, then its assignments.  The per-package
network fetches (lines 63 and 81) are the parameters `polsOf`/`assignsOf`. -/
def processPkg (grouped_tfvars : Bool) (dirDisplayName : String → Option String)
    (polsOf : Pkg → List Pol) (assignsOf : Pkg → List Assign)
    (s : PState) (pkg : Pkg) : PState :=
  let name := safe pkg.displayName
  let s1 : PState := { s with
    access_packages := dinsert name (pkgVal pkg) s.access_packages
    import_cmds := s.import_cmds ++
      ["terraform import azuread_access_package." ++ name ++ " " ++ pkg.id] }
  let s2 := (polsOf pkg).foldl (processPol name) s1
  (assignsOf pkg).foldl (processAssign grouped_tfvars dirDisplayName name) s2

/-- The whole accumulation loop of `main` (src/cli.py lines 52-93) over the
fetched package list. -/
def runPipeline (grouped_tfvars : Bool) (dirDisplayName : String → Option String)
    (polsOf : Pkg → List Pol) (assignsOf : Pkg → List Assign)
    (packages : List Pkg) : PState :=
  packages.foldl (processPkg grouped_tfvars dirDisplayName polsOf assignsOf) initialState

/-- The key list of a dict, in insertion order. -/
def dkeys {α : Type} (d : Dict α) : List String := d.map Prod.fst

theorem dlookup_dinsert {α : Type} (q k : String) (v : α) :
    ∀ d : Dict α, dlookup k (dinsert q v d) = if q = k then some v else dlookup k d
  | [] => by simp [dinsert, dlookup]
  | (k', v') :: d => by
      by_cases h1 : k' = q
      · rw [dinsert, if_pos h1]
        by_cases h2 : q = k
        · rw [dlookup, if_pos (h1.trans h2), if_pos h2]
        · have h3 : ¬ k' = k := fun hc => h2 (h1 ▸ hc)
          rw [dlookup, if_neg h3, if_neg h2, dlookup, if_neg h3]
      · rw [dinsert, if_neg h1]
        by_cases h3 : k' = k
        · have h2 : ¬ q = k := fun hc => h1 (h3.trans hc.symm)
          rw [dlookup, if_pos h3, if_neg h2, dlookup, if_pos h3]
        · rw [dlookup, if_neg h3, dlookup_dinsert q k v d, dlookup, if_neg h3]

theorem dkeys_dinsert {α : Type} (q : String) (v : α) :
    ∀ d : Dict α, dkeys (dinsert q v d) =
      if q ∈ dkeys d then dkeys d else dkeys d ++ [q]
  | [] => by simp [dinsert, dkeys]
  | (k', v') :: d => by
      by_cases h1 : k' = q
      · rw [dinsert, if_pos h1]
        have hq : q ∈ dkeys ((k', v') :: d) := by
          simp [dkeys, h1.symm]
        rw [if_pos hq]
        simp [dkeys, h1]
      · rw [dinsert, if_neg h1]
        have hk : dkeys ((k', v') :: dinsert q v d) = k' :: dkeys (dinsert q v d) := rfl
        rw [hk, dkeys_dinsert q v d]
        by_cases h2 : q ∈ dkeys d
        · have : q ∈ dkeys ((k', v') :: d) := by simp [dkeys]; right; simpa [dkeys] using h2
          rw [if_pos h2, if_pos this]
          rfl
        · have : ¬ q ∈ dkeys ((k', v') :: d) := by
            simp only [dkeys, List.map_cons, List.mem_cons]
            push_neg
            exact ⟨fun hc => h1 hc.symm, by simpa [dkeys] using h2⟩
          rw [if_neg h2, if_neg this]
          rfl

theorem mem_dkeys_dinsert_self {α : Type} (q : String) (v : α) (d : Dict α) :
    q ∈ dkeys (dinsert q v d) := by
  rw [dkeys_dinsert]
  by_cases h : q ∈ dkeys d
  · rwa [if_pos h]
  · rw [if_neg h]
    simp

theorem mem_dkeys_dinsert_of_mem {α : Type} (q x : String) (v : α) (d : Dict α)
    (h : x ∈ dkeys d) : x ∈ dkeys (dinsert q v d) := by
  rw [dkeys_dinsert]
  by_cases hq : q ∈ dkeys d
  · rwa [if_pos hq]
  · rw [if_neg hq]
    exact List.mem_append_left _ h

theorem nodup_dkeys_dinsert {α : Type} (q : String) (v : α) (d : Dict α)
    (h : (dkeys d).Nodup) : (dkeys (dinsert q v d)).Nodup := by
  rw [dkeys_dinsert]
  by_cases hq : q ∈ dkeys d
  · rwa [if_pos hq]
  · rw [if_neg hq]
    rw [List.nodup_append]
    refine ⟨h, List.nodup_singleton q, ?_⟩
    intro a ha hb
    rw [List.mem_singleton] at hb
    exact hq (hb ▸ ha)

theorem mem_dinsert_val {α : Type} (q : String) (v : α) :
    ∀ (d : Dict α) (kv : String × α), kv ∈ dinsert q v d → kv.2 = v ∨ kv ∈ d
  | [], kv, h => by
      rw [dinsert] at h
      simp at h
      left
      rw [h]
  | (k', v') :: d, kv, h => by
      by_cases h1 : k' = q
      · rw [dinsert, if_pos h1] at h
        rcases List.mem_cons.mp h with h | h
        · left
          rw [h]
        · right
          exact List.mem_cons_of_mem _ h
      · rw [dinsert, if_neg h1] at h
        rcases List.mem_cons.mp h with h | h
        · right
          rw [h]
          exact List.mem_cons_self _ _
        · rcases mem_dinsert_val q v d kv h with h | h
          · left
            exact h
          · right
            exact List.mem_cons_of_mem _ h

/-- Fold a list of key/value pairs into a dict by repeated `dinsert`. -/
def buildDict {α : Type} (kvs : List (String × α)) (d0 : Dict α) : Dict α :=
  kvs.foldl (fun d kv => dinsert kv.1 kv.2 d) d0

theorem buildDict_nil {α : Type} (d0 : Dict α) : buildDict [] d0 = d0 := rfl

theorem buildDict_cons {α : Type} (kv : String × α) (kvs : List (String × α)) (d0 : Dict α) :
    buildDict (kv :: kvs) d0 = buildDict kvs (dinsert kv.1 kv.2 d0) := rfl

theorem buildDict_append {α : Type} (l1 l2 : List (String × α)) (d0 : Dict α) :
    buildDict (l1 ++ l2) d0 = buildDict l2 (buildDict l1 d0) := by
  simp [buildDict, List.foldl_append]

/-- Looking a key up in a dict built by repeated insertion: the LAST pair
inserted with that key wins; with no such pair the base dict answers. -/
theorem dlookup_buildDict {α : Type} :
    ∀ (kvs : List (String × α)) (d0 : Dict α) (k : String),
      dlookup k (buildDict kvs d0) =
        ((kvs.filter fun kv => kv.1 == k).getLast?.map Prod.snd).or (dlookup k d0)
  | [], d0, k => by simp [buildDict]
  | kv :: kvs, d0, k => by
      rw [buildDict_cons, dlookup_buildDict kvs _ k]
      by_cases h : kv.1 = k
      · rw [List.filter_cons_of_pos (by simpa using h), dlookup_dinsert, if_pos h]
        cases hlast : (kvs.filter fun kv => kv.1 == k).getLast? with
        | none =>
            have : kvs.filter (fun kv => kv.1 == k) = [] := List.getLast?_eq_none_iff.mp hlast
            rw [this]
            simp
        | some kv' =>
            have hne : kvs.filter (fun kv => kv.1 == k) ≠ [] := by
              intro hc
              rw [hc] at hlast
              simp at hlast
            rw [show (kv :: kvs.filter fun kv => kv.1 == k) = [kv] ++ kvs.filter fun kv => kv.1 == k from rfl,
              List.getLast?_append, hlast]
            simp
      · rw [List.filter_cons_of_neg (by simpa using h), dlookup_dinsert, if_neg h]

theorem foldl_field_const {β γ : Type} (f : PState → β → PState) (g : PState → γ)
    (hf : ∀ s x, g (f s x) = g s) : ∀ (l : List β) (s : PState), g (l.foldl f s) = g s
  | [], _ => rfl
  | x :: l, s => by rw [List.foldl_cons, foldl_field_const f g hf l (f s x), hf]

theorem processPol_access_packages (n : String) (s : PState) (pol : Pol) :
    (processPol n s pol).access_packages = s.access_packages := rfl

theorem processPol_assignments (n : String) (s : PState) (pol : Pol) :
    (processPol n s pol).assignments = s.assignments := rfl

theorem processPol_grouped (n : String) (s : PState) (pol : Pol) :
    (processPol n s pol).grouped_assignments = s.grouped_assignments := rfl

theorem processAssign_access_packages (g : Bool) (dir : String → Option String)
    (n : String) (s : PState) (a : Assign) :
    (processAssign g dir n s a).access_packages = s.access_packages := rfl

theorem processAssign_policies (g : Bool) (dir : String → Option String)
    (n : String) (s : PState) (a : Assign) :
    (processAssign g dir n s a).assignment_policies = s.assignment_policies := rfl

/-- Folding the policy loop leaves `access_packages` untouched. -/
theorem polFold_access_packages (n : String) (pols : List Pol) (s : PState) :
    ((pols.foldl (processPol n) s).access_packages) = s.access_packages :=
  foldl_field_const (processPol n) PState.access_packages (fun _ _ => rfl) pols s

theorem polFold_assignments (n : String) (pols : List Pol) (s : PState) :
    ((pols.foldl (processPol n) s).assignments) = s.assignments :=
  foldl_field_const (processPol n) PState.assignments (fun _ _ => rfl) pols s

theorem polFold_grouped (n : String) (pols : List Pol) (s : PState) :
    ((pols.foldl (processPol n) s).grouped_assignments) = s.grouped_assignments :=
  foldl_field_const (processPol n) PState.grouped_assignments (fun _ _ => rfl) pols s

theorem assignFold_access_packages (g : Bool) (dir : String → Option String) (n : String)
    (l : List Assign) (s : PState) :
    ((l.foldl (processAssign g dir n) s).access_packages) = s.access_packages :=
  foldl_field_const (processAssign g dir n) PState.access_packages (fun _ _ => rfl) l s

theorem assignFold_policies (g : Bool) (dir : String → Option String) (n : String)
    (l : List Assign) (s : PState) :
    ((l.foldl (processAssign g dir n) s).assignment_policies) = s.assignment_policies :=
  foldl_field_const (processAssign g dir n) PState.assignment_policies (fun _ _ => rfl) l s

/-- The policy loop accumulates exactly its key/value pairs into
`assignment_policies`. -/
theorem polFold_policies (n : String) :
    ∀ (pols : List Pol) (s : PState),
      ((pols.foldl (processPol n) s).assignment_policies) =
        buildDict (pols.map fun pol => (polKey n pol, polVal n pol)) s.assignment_policies
  | [], _ => rfl
  | pol :: pols, s => by
      rw [List.foldl_cons, polFold_policies n pols, List.map_cons, buildDict_cons]
      rfl

/-- The assignment loop accumulates exactly its key/value pairs into
`assignments`. -/
theorem assignFold_assignments (g : Bool) (dir : String → Option String) (n : String) :
    ∀ (l : List Assign) (s : PState),
      ((l.foldl (processAssign g dir n) s).assignments) =
        buildDict (l.map fun a => (assignKey n a, assignVal n a)) s.assignments
  | [], _ => rfl
  | a :: l, s => by
      rw [List.foldl_cons, assignFold_assignments g dir n l, List.map_cons, buildDict_cons]
      rfl

/-- The `grouped_assignments.setdefault(group, {})[assign_key] = assignment`
step (src/cli.py line 93), over a (package-name, assignment) pair. -/
def gStep (dir : String → Option String) (g : Dict (Dict AssignVal))
    (pa : String × Assign) : Dict (Dict AssignVal) :=
  dinsert (safe (get_display_name dir pa.2.targetId))
    (dinsert (assignKey pa.1 pa.2) (assignVal pa.1 pa.2)
      ((dlookup (safe (get_display_name dir pa.2.targetId)) g).getD []))
    g

theorem assignFold_grouped_true (dir : String → Option String) (n : String) :
    ∀ (l : List Assign) (s : PState),
      ((l.foldl (processAssign true dir n) s).grouped_assignments) =
        (l.map fun a => (n, a)).foldl (gStep dir) s.grouped_assignments
  | [], _ => rfl
  | a :: l, s => by
      rw [List.foldl_cons, assignFold_grouped_true dir n l, List.map_cons, List.foldl_cons]
      rfl

theorem assignFold_grouped_false (dir : String → Option String) (n : String)
    (l : List Assign) (s : PState) :
    ((l.foldl (processAssign false dir n) s).grouped_assignments) = s.grouped_assignments :=
  foldl_field_const (processAssign false dir n) PState.grouped_assignments (fun _ _ => rfl) l s

theorem processPkg_access_packages (g : Bool) (dir : String → Option String)
    (polsOf : Pkg → List Pol) (assignsOf : Pkg → List Assign) (s : PState) (p : Pkg) :
    (processPkg g dir polsOf assignsOf s p).access_packages =
      dinsert (safe p.displayName) (pkgVal p) s.access_packages := by
  unfold processPkg
  rw [assignFold_access_packages, polFold_access_packages]

theorem processPkg_policies (g : Bool) (dir : String → Option String)
    (polsOf : Pkg → List Pol) (assignsOf : Pkg → List Assign) (s : PState) (p : Pkg) :
    (processPkg g dir polsOf assignsOf s p).assignment_policies =
      buildDict ((polsOf p).map fun pol =>
        (polKey (safe p.displayName) pol, polVal (safe p.displayName) pol))
        s.assignment_policies := by
  unfold processPkg
  rw [assignFold_policies, polFold_policies]

theorem processPkg_assignments (g : Bool) (dir : String → Option String)
    (polsOf : Pkg → List Pol) (assignsOf : Pkg → List Assign) (s : PState) (p : Pkg) :
    (processPkg g dir polsOf assignsOf s p).assignments =
      buildDict ((assignsOf p).map fun a =>
        (assignKey (safe p.displayName) a, assignVal (safe p.displayName) a))
        s.assignments := by
  unfold processPkg
  rw [assignFold_assignments, polFold_assignments]

theorem processPkg_grouped_true (dir : String → Option String)
    (polsOf : Pkg → List Pol) (assignsOf : Pkg → List Assign) (s : PState) (p : Pkg) :
    (processPkg true dir polsOf assignsOf s p).grouped_assignments =
      ((assignsOf p).map fun a => (safe p.displayName, a)).foldl (gStep dir)
        s.grouped_assignments := by
  unfold processPkg
  rw [assignFold_grouped_true, polFold_grouped]

theorem processPkg_grouped_false (dir : String → Option String)
    (polsOf : Pkg → List Pol) (assignsOf : Pkg → List Assign) (s : PState) (p : Pkg) :
    (processPkg false dir polsOf assignsOf s p).grouped_assignments =
      s.grouped_assignments := by
  unfold processPkg
  rw [assignFold_grouped_false, polFold_grouped]

/-- All (package-name, policy) key/value pairs of the whole run, in
processing order. -/
def polPairs (polsOf : Pkg → List Pol) (ps : List Pkg) : List (String × PolVal) :=
  ps.flatMap fun p => (polsOf p).map fun pol =>
    (polKey (safe p.displayName) pol, polVal (safe p.displayName) pol)

/-- All (package-name, assignment) pairs of the whole run, in processing
order. -/
def assignPairs (assignsOf : Pkg → List Assign) (ps : List Pkg) : List (String × Assign) :=
  ps.flatMap fun p => (assignsOf p).map fun a => (safe p.displayName, a)

theorem pkgFold_access_packages (g : Bool) (dir : String → Option String)
    (polsOf : Pkg → List Pol) (assignsOf : Pkg → List Assign) :
    ∀ (ps : List Pkg) (s : PState),
      ((ps.foldl (processPkg g dir polsOf assignsOf) s).access_packages) =
        buildDict (ps.map fun p => (safe p.displayName, pkgVal p)) s.access_packages
  | [], _ => rfl
  | p :: ps, s => by
      rw [List.foldl_cons, pkgFold_access_packages g dir polsOf assignsOf ps,
        processPkg_access_packages, List.map_cons, buildDict_cons]

theorem pkgFold_policies (g : Bool) (dir : String → Option String)
    (polsOf : Pkg → List Pol) (assignsOf : Pkg → List Assign) :
    ∀ (ps : List Pkg) (s : PState),
      ((ps.foldl (processPkg g dir polsOf assignsOf) s).assignment_policies) =
        buildDict (polPairs polsOf ps) s.assignment_policies
  | [], _ => rfl
  | p :: ps, s => by
      rw [List.foldl_cons, pkgFold_policies g dir polsOf assignsOf ps,
        processPkg_policies]
      simp only [polPairs, List.flatMap_cons, buildDict_append]

theorem pkgFold_assignments (g : Bool) (dir : String → Option String)
    (polsOf : Pkg → List Pol) (assignsOf : Pkg → List Assign) :
    ∀ (ps : List Pkg) (s : PState),
      ((ps.foldl (processPkg g dir polsOf assignsOf) s).assignments) =
        buildDict ((assignPairs assignsOf ps).map fun pa =>
          (assignKey pa.1 pa.2, assignVal pa.1 pa.2)) s.assignments
  | [], _ => rfl
  | p :: ps, s => by
      rw [List.foldl_cons, pkgFold_assignments g dir polsOf assignsOf ps,
        processPkg_assignments]
      simp only [assignPairs, List.flatMap_cons, List.map_append, buildDict_append,
        List.map_map]
      rfl

theorem pkgFold_grouped_true (dir : String → Option String)
    (polsOf : Pkg → List Pol) (assignsOf : Pkg → List Assign) :
    ∀ (ps : List Pkg) (s : PState),
      ((ps.foldl (processPkg true dir polsOf assignsOf) s).grouped_assignments) =
        (assignPairs assignsOf ps).foldl (gStep dir) s.grouped_assignments
  | [], _ => rfl
  | p :: ps, s => by
      rw [List.foldl_cons, pkgFold_grouped_true dir polsOf assignsOf ps,
        processPkg_grouped_true]
      simp only [assignPairs, List.flatMap_cons, List.foldl_append]

/-- `access_packages` after the whole loop, as a pure dict build. -/
theorem runPipeline_access_packages (g : Bool) (dir : String → Option String)
    (polsOf : Pkg → List Pol) (assignsOf : Pkg → List Assign) (ps : List Pkg) :
    (runPipeline g dir polsOf assignsOf ps).access_packages =
      buildDict (ps.map fun p => (safe p.displayName, pkgVal p)) [] :=
  pkgFold_access_packages g dir polsOf assignsOf ps initialState

/-- `assignment_policies` after the whole loop, as a pure dict build. -/
theorem runPipeline_policies (g : Bool) (dir : String → Option String)
    (polsOf : Pkg → List Pol) (assignsOf : Pkg → List Assign) (ps : List Pkg) :
    (runPipeline g dir polsOf assignsOf ps).assignment_policies =
      buildDict (polPairs polsOf ps) [] :=
  pkgFold_policies g dir polsOf assignsOf ps initialState

/-- `assignments` after the whole loop, as a pure dict build. -/
theorem runPipeline_assignments (g : Bool) (dir : String → Option String)
    (polsOf : Pkg → List Pol) (assignsOf : Pkg → List Assign) (ps : List Pkg) :
    (runPipeline g dir polsOf assignsOf ps).assignments =
      buildDict ((assignPairs assignsOf ps).map fun pa =>
        (assignKey pa.1 pa.2, assignVal pa.1 pa.2)) [] :=
  pkgFold_assignments g dir polsOf assignsOf ps initialState

/-- `grouped_assignments` after the whole loop with `--grouped-tfvars`. -/
theorem runPipeline_grouped (dir : String → Option String)
    (polsOf : Pkg → List Pol) (assignsOf : Pkg → List Assign) (ps : List Pkg) :
    (runPipeline true dir polsOf assignsOf ps).grouped_assignments =
      (assignPairs assignsOf ps).foldl (gStep dir) [] :=
  pkgFold_grouped_true dir polsOf assignsOf ps initialState

/-- C4: when an access package's display name sanitizes to the same key as an
earlier package's, the later package silently overwrites the earlier one in
`access_packages`: with no same-key package after it, the final mapping holds
the later package's record (the loop is total, so no error is raised and no
collision handling occurs). -/
theorem access_packages_overwrite (g : Bool) (dir : String → Option String)
    (polsOf : Pkg → List Pol) (assignsOf : Pkg → List Assign)
    (l1 l2 l3 : List Pkg) (p q : Pkg)
    (_hpq : safe p.displayName = safe q.displayName)
    (h3 : ∀ r ∈ l3, safe r.displayName ≠ safe q.displayName) :
    dlookup (safe q.displayName)
      (runPipeline g dir polsOf assignsOf (l1 ++ p :: l2 ++ q :: l3)).access_packages =
      some (pkgVal q) := by
  rw [runPipeline_access_packages, dlookup_buildDict]
  rw [List.filter_map, List.getLast?_map, Option.map_map]
  have h3' : l3.filter
      ((fun kv => kv.1 == safe q.displayName) ∘ fun r => (safe r.displayName, pkgVal r)) = [] := by
    rw [List.filter_eq_nil_iff]
    intro r hr
    simpa using h3 r hr
  have hql3 : (q :: l3).filter
      ((fun kv => kv.1 == safe q.displayName) ∘ fun r => (safe r.displayName, pkgVal r)) = [q] := by
    rw [List.filter_cons_of_pos (by simp), h3']
  rw [List.filter_append, List.filter_append, hql3,
    List.getLast?_append, List.getLast?_append]
  simp [dlookup]

/-- Witness for C4: two packages both named "Dup Name"; the final mapping
holds the second one's catalog id and description. -/
theorem access_packages_overwrite_spot :
    safe (Pkg.displayName ⟨"Dup Name", "id1", "cat1", none⟩) =
      safe (Pkg.displayName ⟨"Dup Name", "id2", "cat2", some "d2"⟩) ∧
    (∀ r ∈ ([] : List Pkg),
      safe r.displayName ≠ safe (Pkg.displayName ⟨"Dup Name", "id2", "cat2", some "d2"⟩)) ∧
    dlookup (safe (Pkg.displayName ⟨"Dup Name", "id2", "cat2", some "d2"⟩))
      (runPipeline false (fun _ => none) (fun _ => []) (fun _ => [])
        ([] ++ ⟨"Dup Name", "id1", "cat1", none⟩ :: [] ++
          (⟨"Dup Name", "id2", "cat2", some "d2"⟩ : Pkg) :: [])).access_packages =
      some (pkgVal ⟨"Dup Name", "id2", "cat2", some "d2"⟩) :=
  ⟨rfl, by decide,
    access_packages_overwrite false (fun _ => none) (fun _ => []) (fun _ => [])
      [] [] [] _ _ rfl (by decide)⟩

/-- C10: assignment keys are `name_user_` plus only the FIRST 6 characters of
the target id, so same-prefix targets of one package share a key (first
conjunct), and a lookup in the final `assignments` mapping returns the value
of the LAST processed (package, assignment) pair bearing that key (second
conjunct): the later assignment overwrites the earlier one. -/
theorem assignments_prefix_overwrite (g : Bool) (dir : String → Option String)
    (polsOf : Pkg → List Pol) (assignsOf : Pkg → List Assign) (ps : List Pkg) :
    (∀ (n : String) (a1 a2 : Assign), a1.targetId.take 6 = a2.targetId.take 6 →
        assignKey n a1 = assignKey n a2) ∧
    (∀ k, dlookup k (runPipeline g dir polsOf assignsOf ps).assignments =
      ((assignPairs assignsOf ps).filter fun pa => assignKey pa.1 pa.2 == k).getLast?.map
        fun pa => assignVal pa.1 pa.2) := by
  constructor
  · intro n a1 a2 h
    rw [assignKey, assignKey, h]
  · intro k
    rw [runPipeline_assignments, dlookup_buildDict]
    rw [List.filter_map, List.getLast?_map, Option.map_map]
    simp only [dlookup]
    rw [Option.or_none]
    rfl

/-- Witness for C10: one package "Pkg" with two assignments whose target ids
share the 6-character prefix "abcdef"; the key collides and the second
assignment's record is the one stored. -/
theorem assignments_prefix_overwrite_spot :
    ((Assign.targetId ⟨"abcdef111", "x"⟩).take 6 =
      (Assign.targetId ⟨"abcdef222", "y"⟩).take 6) ∧
    assignKey "pkg" ⟨"abcdef111", "x"⟩ = assignKey "pkg" ⟨"abcdef222", "y"⟩ ∧
    dlookup "pkg_user_abcdef"
      (runPipeline false (fun _ => none) (fun _ => [])
        (fun _ => [⟨"abcdef111", "x"⟩, ⟨"abcdef222", "y"⟩])
        [⟨"Pkg", "pid", "cat", none⟩]).assignments =
      some (assignVal "pkg" ⟨"abcdef222", "y"⟩) :=
  ⟨by decide,
    (assignments_prefix_overwrite false (fun _ => none) (fun _ => [])
      (fun _ => [⟨"abcdef111", "x"⟩, ⟨"abcdef222", "y"⟩]) [⟨"Pkg", "pid", "cat", none⟩]).1
      "pkg" ⟨"abcdef111", "x"⟩ ⟨"abcdef222", "y"⟩ (by decide),
    ((assignments_prefix_overwrite false (fun _ => none) (fun _ => [])
      (fun _ => [⟨"abcdef111", "x"⟩, ⟨"abcdef222", "y"⟩]) [⟨"Pkg", "pid", "cat", none⟩]).2
      "pkg_user_abcdef").trans (by decide)⟩

theorem dkeys_buildDict_mem_base {α : Type} :
    ∀ (kvs : List (String × α)) (d0 : Dict α) (k : String),
      k ∈ dkeys d0 → k ∈ dkeys (buildDict kvs d0)
  | [], _, _, h => h
  | kv :: kvs, d0, k, h => by
      rw [buildDict_cons]
      exact dkeys_buildDict_mem_base kvs _ k (mem_dkeys_dinsert_of_mem _ _ _ _ h)

theorem dkeys_buildDict_mem {α : Type} :
    ∀ (kvs : List (String × α)) (d0 : Dict α) (k : String),
      k ∈ kvs.map Prod.fst → k ∈ dkeys (buildDict kvs d0)
  | [], _, _, h => by simp at h
  | kv :: kvs, d0, k, h => by
      rw [buildDict_cons]
      rw [List.map_cons] at h
      rcases List.mem_cons.mp h with h | h
      · exact dkeys_buildDict_mem_base kvs _ k (h ▸ mem_dkeys_dinsert_self kv.1 kv.2 d0)
      · exact dkeys_buildDict_mem kvs _ k h

theorem mem_buildDict_val {α : Type} :
    ∀ (kvs : List (String × α)) (d0 : Dict α) (kv : String × α),
      kv ∈ buildDict kvs d0 → kv.2 ∈ kvs.map Prod.snd ∨ kv ∈ d0
  | [], _, _, h => Or.inr h
  | kv0 :: kvs, d0, kv, h => by
      rw [buildDict_cons] at h
      rcases mem_buildDict_val kvs _ kv h with h | h
      · left
        exact List.mem_cons_of_mem _ h
      · rcases mem_dinsert_val kv0.1 kv0.2 d0 kv h with h | h
        · left
          rw [List.map_cons, h]
          exact List.mem_cons_self _ _
        · right
          exact h

/-- Referential integrity of the accumulated state: every value stored in
`assignment_policies` and in `assignments` carries an `access_package_key`
that is a key of `access_packages`. -/
def refIntact (s : PState) : Bool :=
  (s.assignment_policies.all fun kv =>
    (dkeys s.access_packages).contains kv.2.access_package_key) &&
  (s.assignments.all fun kv =>
    (dkeys s.access_packages).contains kv.2.access_package_key)

/-- C9: after the accumulation loop, every `assignment_policies` value and
every `assignments` value refers (via `access_package_key`) to a key that is
present in `access_packages`. -/
theorem refIntact_runPipeline (g : Bool) (dir : String → Option String)
    (polsOf : Pkg → List Pol) (assignsOf : Pkg → List Assign) (ps : List Pkg) :
    refIntact (runPipeline g dir polsOf assignsOf ps) = true := by
  rw [refIntact, Bool.and_eq_true, List.all_eq_true, List.all_eq_true]
  constructor
  · intro kv hkv
    rw [runPipeline_policies] at hkv
    rcases mem_buildDict_val _ _ _ hkv with h | h
    · simp only [polPairs, List.mem_map, List.mem_flatMap] at h
      obtain ⟨x, ⟨p, hp, pol, hpol, hfx⟩, hsnd⟩ := h
      have hkey : kv.2.access_package_key = safe p.displayName := by
        rw [← hsnd, ← hfx]
        rfl
      rw [hkey, runPipeline_access_packages]
      apply List.elem_iff.mpr
      apply dkeys_buildDict_mem
      simp only [List.map_map, List.mem_map]
      exact ⟨p, hp, rfl⟩
    · simp at h
  · intro kv hkv
    rw [runPipeline_assignments] at hkv
    rcases mem_buildDict_val _ _ _ hkv with h | h
    · simp only [assignPairs, List.map_map, List.mem_map, List.mem_flatMap] at h
      obtain ⟨x, ⟨p, hp, a, ha, hfx⟩, hsnd⟩ := h
      have hkey : kv.2.access_package_key = safe p.displayName := by
        rw [← hsnd, ← hfx]
        rfl
      rw [hkey, runPipeline_access_packages]
      apply List.elem_iff.mpr
      apply dkeys_buildDict_mem
      simp only [List.map_map, List.mem_map]
      exact ⟨p, hp, rfl⟩
    · simp at h

theorem dlookup_isSome_iff {α : Type} (k : String) :
    ∀ d : Dict α, (dlookup k d).isSome = true ↔ k ∈ dkeys d
  | [] => by simp [dlookup, dkeys]
  | (k', v) :: d => by
      by_cases h : k' = k
      · simp [dlookup, h, dkeys]
      · rw [dlookup, if_neg h]
        have hk : dkeys ((k', v) :: d) = k' :: dkeys d := rfl
        rw [hk, List.mem_cons, dlookup_isSome_iff k d]
        constructor
        · exact fun hm => Or.inr hm
        · rintro (hm | hm)
          · exact absurd hm.symm h
          · exact hm

/-- Lookup of a group key after folding `setdefault`-style inserts: the
group's sub-dict is built from exactly the pairs resolving to that group, in
order, on top of whatever the starting dict held for that group. -/
theorem dlookup_gStepFold (dir : String → Option String) :
    ∀ (pairs : List (String × Assign)) (g0 : Dict (Dict AssignVal)) (k : String),
      dlookup k (pairs.foldl (gStep dir) g0) =
        if (pairs.filter fun pa => safe (get_display_name dir pa.2.targetId) == k) = [] then
          dlookup k g0
        else
          some (buildDict
            ((pairs.filter fun pa => safe (get_display_name dir pa.2.targetId) == k).map
              fun pa => (assignKey pa.1 pa.2, assignVal pa.1 pa.2))
            ((dlookup k g0).getD []))
  | [], g0, k => by simp
  | pa :: pairs, g0, k => by
      rw [List.foldl_cons, dlookup_gStepFold dir pairs (gStep dir g0 pa) k]
      by_cases hg : safe (get_display_name dir pa.2.targetId) = k
      · have hfc : ((pa :: pairs).filter fun x => safe (get_display_name dir x.2.targetId) == k) =
            pa :: (pairs.filter fun x => safe (get_display_name dir x.2.targetId) == k) :=
          List.filter_cons_of_pos (by simpa using hg)
        have hlk : dlookup k (gStep dir g0 pa) =
            some (dinsert (assignKey pa.1 pa.2) (assignVal pa.1 pa.2)
              ((dlookup k g0).getD [])) := by
          unfold gStep
          rw [dlookup_dinsert, if_pos hg, hg]
        rw [hfc, if_neg (List.cons_ne_nil _ _)]
        by_cases hrest : (pairs.filter fun x => safe (get_display_name dir x.2.targetId) == k) = []
        · rw [if_pos hrest, hlk, hrest, List.map_cons, List.map_nil, buildDict_cons,
            buildDict_nil]
        · rw [if_neg hrest, hlk, List.map_cons, buildDict_cons]
          rfl
      · have hfc : ((pa :: pairs).filter fun x => safe (get_display_name dir x.2.targetId) == k) =
            (pairs.filter fun x => safe (get_display_name dir x.2.targetId) == k) :=
          List.filter_cons_of_neg (by simpa using hg)
        have hlk : dlookup k (gStep dir g0 pa) = dlookup k g0 := by
          unfold gStep
          rw [dlookup_dinsert, if_neg hg]
        rw [hfc, hlk]

theorem nodup_dkeys_gStepFold (dir : String → Option String) :
    ∀ (pairs : List (String × Assign)) (g0 : Dict (Dict AssignVal)),
      (dkeys g0).Nodup → (dkeys (pairs.foldl (gStep dir) g0)).Nodup
  | [], _, h => h
  | pa :: pairs, g0, h => by
      rw [List.foldl_cons]
      exact nodup_dkeys_gStepFold dir pairs _ (nodup_dkeys_dinsert _ _ _ h)

/-- C5: with `--grouped-tfvars`, one group file is produced per distinct
resolved-and-sanitized group name (keys are distinct, they are exactly the
groups occurring among the assignments, and their count is the number G of
distinct groups), and the dict serialized into a group's file holds exactly
the assignments resolving to that group (a lookup in it answers the last
processed same-key assignment of that group and nothing else). -/
theorem grouped_tfvars_exact (dir : String → Option String)
    (polsOf : Pkg → List Pol) (assignsOf : Pkg → List Assign) (ps : List Pkg) :
    (dkeys (runPipeline true dir polsOf assignsOf ps).grouped_assignments).Nodup ∧
    (∀ k, k ∈ dkeys (runPipeline true dir polsOf assignsOf ps).grouped_assignments ↔
      k ∈ (assignPairs assignsOf ps).map fun pa => safe (get_display_name dir pa.2.targetId)) ∧
    (∀ k d, dlookup k (runPipeline true dir polsOf assignsOf ps).grouped_assignments = some d →
      ∀ ak, dlookup ak d =
        ((((assignPairs assignsOf ps).filter
            fun pa => safe (get_display_name dir pa.2.targetId) == k).filter
          fun pa => assignKey pa.1 pa.2 == ak).getLast?.map fun pa => assignVal pa.1 pa.2)) ∧
    (dkeys (runPipeline true dir polsOf assignsOf ps).grouped_assignments).length =
      ((assignPairs assignsOf ps).map
        fun pa => safe (get_display_name dir pa.2.targetId)).dedup.length := by
  have hnodup : (dkeys (runPipeline true dir polsOf assignsOf ps).grouped_assignments).Nodup := by
    rw [runPipeline_grouped]
    exact nodup_dkeys_gStepFold dir _ [] List.nodup_nil
  have hmem : ∀ k, k ∈ dkeys (runPipeline true dir polsOf assignsOf ps).grouped_assignments ↔
      k ∈ (assignPairs assignsOf ps).map fun pa => safe (get_display_name dir pa.2.targetId) := by
    intro k
    rw [← dlookup_isSome_iff, runPipeline_grouped, dlookup_gStepFold]
    by_cases h : ((assignPairs assignsOf ps).filter
        fun pa => safe (get_display_name dir pa.2.targetId) == k) = []
    · rw [if_pos h]
      simp only [dlookup, Option.isSome_none, Bool.false_eq_true, false_iff]
      intro hm
      obtain ⟨pa, hpa, hpk⟩ := List.mem_map.mp hm
      exact (List.filter_eq_nil_iff.mp h) pa hpa (by simpa using hpk)
    · rw [if_neg h]
      simp only [Option.isSome_some, eq_self_iff_true, true_iff]
      obtain ⟨pa, hpa⟩ := List.exists_mem_of_ne_nil _ h
      have hf := List.mem_filter.mp hpa
      exact List.mem_map.mpr ⟨pa, hf.1, by simpa using hf.2⟩
  refine ⟨hnodup, hmem, ?_, ?_⟩
  · intro k d hd ak
    rw [runPipeline_grouped, dlookup_gStepFold] at hd
    by_cases h : ((assignPairs assignsOf ps).filter
        fun pa => safe (get_display_name dir pa.2.targetId) == k) = []
    · rw [if_pos h] at hd
      simp [dlookup] at hd
    · rw [if_neg h] at hd
      have hd' : d = buildDict
          (((assignPairs assignsOf ps).filter
              fun pa => safe (get_display_name dir pa.2.targetId) == k).map
            fun pa => (assignKey pa.1 pa.2, assignVal pa.1 pa.2)) [] := by
        have := Option.some.inj hd
        rw [← this]
        rfl
      rw [hd', dlookup_buildDict, List.filter_map, List.getLast?_map, Option.map_map]
      simp only [dlookup]
      rw [Option.or_none]
      rfl
  · calc (dkeys (runPipeline true dir polsOf assignsOf ps).grouped_assignments).length
        = (dkeys (runPipeline true dir polsOf assignsOf ps).grouped_assignments).toFinset.card :=
          (List.toFinset_card_of_nodup hnodup).symm
      _ = ((assignPairs assignsOf ps).map
            fun pa => safe (get_display_name dir pa.2.targetId)).toFinset.card := by
          apply congrArg Finset.card
          apply Finset.ext
          intro x
          rw [List.mem_toFinset, List.mem_toFinset]
          exact hmem x
      _ = ((assignPairs assignsOf ps).map
            fun pa => safe (get_display_name dir pa.2.targetId)).dedup.length :=
          List.card_toFinset _

/-- Witness for C5: one package "Pkg One" with two assignments resolving to
groups "Group A" and "Group B": two group files, each holding exactly its own
assignment. -/
theorem grouped_tfvars_exact_spot :
    dlookup "group_a" (runPipeline true
      (fun oid => if oid = "t1aaaaa" then some "Group A"
        else if oid = "t2bbbbb" then some "Group B" else none)
      (fun _ => []) (fun _ => [⟨"t1aaaaa", "a1"⟩, ⟨"t2bbbbb", "a2"⟩])
      [⟨"Pkg One", "p1", "c1", none⟩]).grouped_assignments =
      some [("pkg_one_user_t1aaaa", assignVal "pkg_one" ⟨"t1aaaaa", "a1"⟩)] ∧
    dlookup "pkg_one_user_t1aaaa"
      [("pkg_one_user_t1aaaa", assignVal "pkg_one" ⟨"t1aaaaa", "a1"⟩)] =
      some (assignVal "pkg_one" ⟨"t1aaaaa", "a1"⟩) ∧
    (dkeys (runPipeline true
      (fun oid => if oid = "t1aaaaa" then some "Group A"
        else if oid = "t2bbbbb" then some "Group B" else none)
      (fun _ => []) (fun _ => [⟨"t1aaaaa", "a1"⟩, ⟨"t2bbbbb", "a2"⟩])
      [⟨"Pkg One", "p1", "c1", none⟩]).grouped_assignments).length = 2 :=
  ⟨by decide,
   ((grouped_tfvars_exact
      (fun oid => if oid = "t1aaaaa" then some "Group A"
        else if oid = "t2bbbbb" then some "Group B" else none)
      (fun _ => []) (fun _ => [⟨"t1aaaaa", "a1"⟩, ⟨"t2bbbbb", "a2"⟩])
      [⟨"Pkg One", "p1", "c1", none⟩]).2.2.1 "group_a"
      [("pkg_one_user_t1aaaa", assignVal "pkg_one" ⟨"t1aaaaa", "a1"⟩)] (by decide)
      "pkg_one_user_t1aaaa").trans (by decide),
   ((grouped_tfvars_exact
      (fun oid => if oid = "t1aaaaa" then some "Group A"
        else if oid = "t2bbbbb" then some "Group B" else none)
      (fun _ => []) (fun _ => [⟨"t1aaaaa", "a1"⟩, ⟨"t2bbbbb", "a2"⟩])
      [⟨"Pkg One", "p1", "c1", none⟩]).2.2.2).trans (by decide)⟩

/-- Contents written by the file-emission phase.  `json.dump` serialization
is modelled by storing the dumped mappings themselves. -/
inductive FileData where
  | tfvars (ap : Dict PkgVal) (pols : Dict PolVal) (asg : Dict AssignVal) : FileData
  | groupTfvars (asg : Dict AssignVal) : FileData
  | script (cmds : List String) : FileData
  | text (content : String) : FileData
deriving Repr, DecidableEq
/-- Literal content of the `main.tf` scaffold (src/cli.py lines 115-150). -/
def mainTfText : String :=
  "resource \"azuread_access_package\" \"packages\" \x7b\n  for_each     = var.access_packages\n  display_name = each.key\n  catalog_id   = each.value.catalog_id\n  description  = each.value.description\n\x7d\n\nresource \"azuread_access_package_assignment_policy\" \"policies\" \x7b\n  for_each             = var.assignment_policies\n  display_name         = each.key\n  access_package_id    = azuread_access_package.packages[each.value.access_package_key].id\n  duration_in_days     = each.value.duration_in_days\n  request_approval     = each.value.request_approval\n\n  approval_settings \x7b\n    approval_mode  = \"Serial\"\n    stages = [\n      \x7b\n        primary_approvers    = each.value.approvers_primary\n        escalation_approvers = each.value.approvers_secondary\n        duration_in_days     = 7\n      \x7d\n    ]\n  \x7d\n\n  requestor_settings \x7b\n    scope_type = \"AllExistingConnectedOrganizationSubjects\"\n  \x7d\n\x7d\n\nresource \"azuread_access_package_assignment\" \"assignments\" \x7b\n  for_each          = var.assignments\n  access_package_id = azuread_access_package.packages[each.value.access_package_key].id\n  target_id         = each.value.target_id\n\x7d\n"

/-- Literal content of the `variables.tf` scaffold (src/cli.py lines 155-178). -/
def variablesTfText : String :=
  "variable \"access_packages\" \x7b\n  type = map(object(\x7b\n    catalog_id   = string\n    description  = string\n  \x7d))\n\x7d\n\nvariable \"assignment_policies\" \x7b\n  type = map(object(\x7b\n    access_package_key  = string\n    duration_in_days    = number\n    request_approval    = bool\n    approvers_primary   = list(string)\n    approvers_secondary = list(string)\n  \x7d))\n\x7d\n\nvariable \"assignments\" \x7b\n  type = map(object(\x7b\n    access_package_key = string\n    target_id          = string\n  \x7d))\n\x7d\n"

/-- Write `main.tf` only if no file of that name exists
(src/cli.py lines 113-114). -/
def emitMainTf (generate_main : Bool) (fs : Dict FileData) : Dict FileData :=
  if generate_main && !(dlookup "main.tf" fs).isSome then
    dinsert "main.tf" (FileData.text mainTfText) fs
  else fs

/-- Write `variables.tf` only if no file of that name exists, after the
`main.tf` step (src/cli.py lines 153-154). -/
def emitScaffolds (generate_main : Bool) (fs : Dict FileData) : Dict FileData :=
  if generate_main && !(dlookup "variables.tf" (emitMainTf generate_main fs)).isSome then
    dinsert "variables.tf" (FileData.text variablesTfText) (emitMainTf generate_main fs)
  else emitMainTf generate_main fs

/-- Write one `{group}.tfvars` file per entry of `grouped_assignments`
(src/cli.py lines 101-105). -/
def emitGroupFiles (grouped_tfvars : Bool) (s : PState) (fs : Dict FileData) : Dict FileData :=
  if grouped_tfvars then
    s.grouped_assignments.foldl
      (fun acc kv => dinsert (kv.1 ++ ".tfvars") (FileData.groupTfvars kv.2) acc) fs
  else fs

/-- The whole file-emission phase of `main` (src/cli.py lines 95-179), in
program order: `terraform.tfvars`, the group files, `terraform_import.sh`,
then the two guarded scaffold files. -/
def emitFiles (grouped_tfvars generate_main : Bool) (s : PState) (fs : Dict FileData) :
    Dict FileData :=
  emitScaffolds generate_main
    (dinsert "terraform_import.sh" (FileData.script s.import_cmds)
      (emitGroupFiles grouped_tfvars s
        (dinsert "terraform.tfvars"
          (FileData.tfvars s.access_packages s.assignment_policies s.assignments) fs)))

theorem appended_name_ne (gname suf target : String)
    (h : suf.data.reverse ≠ target.data.reverse.take suf.data.reverse.length) :
    gname ++ suf ≠ target := by
  intro he
  apply h
  have hd : gname.data ++ suf.data = target.data := by
    rw [← String.data_append, he]
  calc suf.data.reverse
      = (suf.data.reverse ++ gname.data.reverse).take suf.data.reverse.length :=
        (List.take_left _ _).symm
    _ = (gname.data ++ suf.data).reverse.take suf.data.reverse.length := by
        rw [List.reverse_append]
    _ = target.data.reverse.take suf.data.reverse.length := by rw [hd]

theorem group_file_ne_main (g : String) : g ++ ".tfvars" ≠ "main.tf" :=
  appended_name_ne g ".tfvars" "main.tf" (by decide)

theorem group_file_ne_variables (g : String) : g ++ ".tfvars" ≠ "variables.tf" :=
  appended_name_ne g ".tfvars" "variables.tf" (by decide)

theorem dlookup_group_fold (k : String) (hk : ∀ g, g ++ ".tfvars" ≠ k) :
    ∀ (l : Dict (Dict AssignVal)) (fs : Dict FileData),
      dlookup k (l.foldl
        (fun acc kv => dinsert (kv.1 ++ ".tfvars") (FileData.groupTfvars kv.2) acc) fs) =
        dlookup k fs
  | [], _ => rfl
  | kv :: l, fs => by
      rw [List.foldl_cons, dlookup_group_fold k hk l _, dlookup_dinsert, if_neg (hk kv.1)]

theorem emitGroupFiles_keeps (grouped : Bool) (s : PState) (fs : Dict FileData)
    (k : String) (hk : ∀ g, g ++ ".tfvars" ≠ k) :
    dlookup k (emitGroupFiles grouped s fs) = dlookup k fs := by
  unfold emitGroupFiles
  by_cases hg : grouped = true
  · rw [if_pos hg]
    exact dlookup_group_fold k hk _ fs
  · rw [if_neg hg]

theorem emitMainTf_keeps_main (gm : Bool) (fs : Dict FileData) (c : FileData)
    (h : dlookup "main.tf" fs = some c) : dlookup "main.tf" (emitMainTf gm fs) = some c := by
  unfold emitMainTf
  rw [h]
  simp only [Option.isSome_some, Bool.not_true, Bool.and_false, Bool.false_eq_true, if_false]
  exact h

theorem emitMainTf_keeps_other (gm : Bool) (fs : Dict FileData) (k : String)
    (hk : k ≠ "main.tf") : dlookup k (emitMainTf gm fs) = dlookup k fs := by
  unfold emitMainTf
  by_cases hc : (gm && !(dlookup "main.tf" fs).isSome) = true
  · rw [if_pos hc, dlookup_dinsert, if_neg (fun he => hk he.symm)]
  · rw [if_neg hc]

theorem emitScaffolds_keeps_main (gm : Bool) (fs : Dict FileData) (c : FileData)
    (h : dlookup "main.tf" fs = some c) :
    dlookup "main.tf" (emitScaffolds gm fs) = some c := by
  have hm := emitMainTf_keeps_main gm fs c h
  unfold emitScaffolds
  by_cases hc : (gm && !(dlookup "variables.tf" (emitMainTf gm fs)).isSome) = true
  · rw [if_pos hc, dlookup_dinsert, if_neg (by decide)]
    exact hm
  · rw [if_neg hc]
    exact hm

theorem emitScaffolds_keeps_variables (gm : Bool) (fs : Dict FileData) (c : FileData)
    (h : dlookup "variables.tf" fs = some c) :
    dlookup "variables.tf" (emitScaffolds gm fs) = some c := by
  have hv : dlookup "variables.tf" (emitMainTf gm fs) = some c :=
    (emitMainTf_keeps_other gm fs "variables.tf" (by decide)).trans h
  unfold emitScaffolds
  rw [hv]
  simp only [Option.isSome_some, Bool.not_true, Bool.and_false, Bool.false_eq_true, if_false]
  exact hv

theorem emitFiles_keeps_main (grouped gm : Bool) (s : PState) (fs : Dict FileData)
    (c : FileData) (h : dlookup "main.tf" fs = some c) :
    dlookup "main.tf" (emitFiles grouped gm s fs) = some c := by
  have a1 : dlookup "main.tf" (dinsert "terraform.tfvars"
      (FileData.tfvars s.access_packages s.assignment_policies s.assignments) fs) = some c := by
    rw [dlookup_dinsert, if_neg (by decide)]
    exact h
  have b1 := (emitGroupFiles_keeps grouped s _ "main.tf" group_file_ne_main).trans a1
  have c1 : dlookup "main.tf" (dinsert "terraform_import.sh" (FileData.script s.import_cmds)
      (emitGroupFiles grouped s (dinsert "terraform.tfvars"
        (FileData.tfvars s.access_packages s.assignment_policies s.assignments) fs))) = some c := by
    rw [dlookup_dinsert, if_neg (by decide)]
    exact b1
  unfold emitFiles
  exact emitScaffolds_keeps_main gm _ c c1

theorem emitFiles_keeps_variables (grouped gm : Bool) (s : PState) (fs : Dict FileData)
    (c : FileData) (h : dlookup "variables.tf" fs = some c) :
    dlookup "variables.tf" (emitFiles grouped gm s fs) = some c := by
  have a1 : dlookup "variables.tf" (dinsert "terraform.tfvars"
      (FileData.tfvars s.access_packages s.assignment_policies s.assignments) fs) = some c := by
    rw [dlookup_dinsert, if_neg (by decide)]
    exact h
  have b1 := (emitGroupFiles_keeps grouped s _ "variables.tf" group_file_ne_variables).trans a1
  have c1 : dlookup "variables.tf" (dinsert "terraform_import.sh" (FileData.script s.import_cmds)
      (emitGroupFiles grouped s (dinsert "terraform.tfvars"
        (FileData.tfvars s.access_packages s.assignment_policies s.assignments) fs))) = some c := by
    rw [dlookup_dinsert, if_neg (by decide)]
    exact b1
  unfold emitFiles
  exact emitScaffolds_keeps_variables gm _ c c1

/-- C6: each scaffold file is written only when no file of that name exists,
so EACH pre-existing scaffold file keeps its exact contents through one
emission pass and through a second pass over the same output directory —
per file, with no assumption about the other scaffold file (a lone
user-edited `main.tf` is preserved even while `variables.tf` gets written,
and vice versa). -/
theorem scaffold_file_preserved (grouped gm : Bool) (s s2 : PState) (fs : Dict FileData) :
    (∀ c, dlookup "main.tf" fs = some c →
      dlookup "main.tf" (emitFiles grouped gm s fs) = some c ∧
      dlookup "main.tf" (emitFiles grouped gm s2 (emitFiles grouped gm s fs)) = some c) ∧
    (∀ c, dlookup "variables.tf" fs = some c →
      dlookup "variables.tf" (emitFiles grouped gm s fs) = some c ∧
      dlookup "variables.tf" (emitFiles grouped gm s2 (emitFiles grouped gm s fs)) = some c) := by
  constructor
  · intro c h
    have p := emitFiles_keeps_main grouped gm s fs c h
    exact ⟨p, emitFiles_keeps_main grouped gm s2 _ c p⟩
  · intro c h
    have p := emitFiles_keeps_variables grouped gm s fs c h
    exact ⟨p, emitFiles_keeps_variables grouped gm s2 _ c p⟩

/-- Witness for C6: a lone user-edited `main.tf` (no `variables.tf` present)
survives two emission passes with scaffold generation enabled. -/
theorem scaffold_file_preserved_spot :
    dlookup "main.tf" [("main.tf", FileData.text "user main")] =
      some (FileData.text "user main") ∧
    (dlookup "main.tf" (emitFiles true true initialState
        [("main.tf", FileData.text "user main")]) = some (FileData.text "user main") ∧
      dlookup "main.tf" (emitFiles true true initialState (emitFiles true true initialState
        [("main.tf", FileData.text "user main")])) = some (FileData.text "user main")) :=
  ⟨by decide,
    (scaffold_file_preserved true true initialState initialState
      [("main.tf", FileData.text "user main")]).1 (FileData.text "user main") (by decide)⟩

/-- C7: the spec's worked example.  A catalog with one access package
"Finance Access" (id `pkg-123`) and one assignment policy "Standard Policy"
with `isApprovalRequired: true` yields the package key `finance_access`, the
policy key `finance_access_standard_policy` (package key + "_" + sanitized
policy name), the approval flag `true`, and the import command line
`terraform import azuread_access_package.finance_access pkg-123`. -/
theorem finance_access_example :
    dlookup "finance_access"
      (runPipeline false (fun _ => none)
        (fun _ => [⟨"Standard Policy", "pol-7", none, some ⟨some true, none⟩⟩])
        (fun _ => []) [⟨"Finance Access", "pkg-123", "cat-9", none⟩]).access_packages =
      some (pkgVal ⟨"Finance Access", "pkg-123", "cat-9", none⟩) ∧
    dlookup "finance_access_standard_policy"
      (runPipeline false (fun _ => none)
        (fun _ => [⟨"Standard Policy", "pol-7", none, some ⟨some true, none⟩⟩])
        (fun _ => []) [⟨"Finance Access", "pkg-123", "cat-9", none⟩]).assignment_policies =
      some (polVal "finance_access" ⟨"Standard Policy", "pol-7", none, some ⟨some true, none⟩⟩) ∧
    (polVal "finance_access"
      ⟨"Standard Policy", "pol-7", none, some ⟨some true, none⟩⟩).request_approval = true ∧
    "terraform import azuread_access_package.finance_access pkg-123" ∈
      (runPipeline false (fun _ => none)
        (fun _ => [⟨"Standard Policy", "pol-7", none, some ⟨some true, none⟩⟩])
        (fun _ => []) [⟨"Finance Access", "pkg-123", "cat-9", none⟩]).import_cmds := by
  decide

/-- `subprocess.run(cmd, check)`: raises `CalledProcessError` (modelled as
`Except.error` carrying the exit status) iff `check` is set and the exit
status is nonzero; otherwise returns normally. -/
def subprocessRun (check : Bool) (exitCode : Nat) : Except Nat Nat :=
  if check && exitCode != 0 then Except.error exitCode else Except.ok exitCode

/-- The import runner (src/cli.py lines 181-186): when backend config is
detected, `terraform init` runs with `check=True`; the generated import
script then runs WITHOUT `check` (its exit status is never inspected), and
the success line is printed unconditionally.  The result collects the
printed lines, or the raised init failure. -/
def runImports (run_imports backendPresent : Bool) (initExit scriptExit : Nat) :
    Except Nat (List String) :=
  if run_imports then
    match (if backendPresent then
        (subprocessRun true initExit).map
          (fun _ => ["Detected Terraform backend config. Running terraform init..."])
      else Except.ok []) with
    | Except.error e => Except.error e
    | Except.ok msgs =>
        match subprocessRun false scriptExit with
        | Except.error e => Except.error e
        | Except.ok _ => Except.ok (msgs ++ ["✅ terraform import executed"])
  else Except.ok []

/-- C8: a failing `terraform init` (backend present, nonzero exit) is raised
as a program error; the import script's exit status is never raised — for
ANY two script exit statuses the run result is identical, it is a success,
and the success line is reported. -/
theorem runImports_behavior (backendPresent : Bool) (initExit scriptExit scriptExit2 : Nat) :
    (backendPresent = true → initExit ≠ 0 →
      runImports true backendPresent initExit scriptExit = Except.error initExit) ∧
    ((backendPresent = true → initExit = 0) →
      runImports true backendPresent initExit scriptExit =
        runImports true backendPresent initExit scriptExit2 ∧
      ∃ msgs, runImports true backendPresent initExit scriptExit = Except.ok msgs ∧
        "✅ terraform import executed" ∈ msgs) := by
  cases backendPresent with
  | false =>
      constructor
      · intro hb
        exact absurd hb (by decide)
      · intro _
        constructor
        · rfl
        · exact ⟨["✅ terraform import executed"], rfl, by decide⟩
  | true =>
      constructor
      · intro _ hi
        unfold runImports
        rw [if_pos rfl, if_pos rfl]
        unfold subprocessRun
        rw [if_pos (by simpa using hi)]
        rfl
      · intro h
        have hi : initExit = 0 := h rfl
        subst hi
        constructor
        · rfl
        · exact ⟨["Detected Terraform backend config. Running terraform init...",
            "✅ terraform import executed"], rfl, by decide⟩

/-- Witness for C8: backend present with init exit 1 raises; backend absent
with script exits 5 and 7 gives the same successful result. -/
theorem runImports_behavior_spot :
    runImports true true 1 5 = Except.error 1 ∧
    runImports true false 3 5 = runImports true false 3 7 ∧
    ∃ msgs, runImports true false 3 5 = Except.ok msgs ∧
      "✅ terraform import executed" ∈ msgs :=
  ⟨(runImports_behavior true 1 5 5).1 rfl (by decide),
   ((runImports_behavior false 3 5 7).2 (fun hb => absurd hb (by decide))).1,
   ((runImports_behavior false 3 5 7).2 (fun hb => absurd hb (by decide))).2⟩
